import Mathlib

/-
Verification of the KalmanFilter class (src/kalman.py) against its
specification.  The class is embedded shallowly over exact rationals:
numpy vectors become `Fin n → ℚ`, numpy matrices become Mathlib matrices
over ℚ, the shared numpy random source becomes explicit noise-draw
sequences passed as arguments, and operations that can raise
(out-of-bounds column writes, singular-matrix inversions in
scipy.linalg.inv) return `Except`.
-/

/-- Vector of length n over ℚ (a numpy 1-d array of floats). -/
abbrev Vec (n : ℕ) := Fin n → ℚ

/-- Matrix of shape (n, m) over ℚ (a numpy 2-d array of floats). -/
abbrev Mat (n m : ℕ) := Matrix (Fin n) (Fin m) ℚ

/-- Error raised by a failed array or linear-algebra operation: an
out-of-bounds column write (numpy IndexError, e.g. `out[:,0] = x0` on an
array with zero columns) or a singular-matrix inversion
(scipy.linalg.inv raising on a non-invertible input). -/
inductive KErr where
  | outOfBounds : KErr
  | singular : KErr
deriving DecidableEq, Repr

/-- Matrix inverse over ℚ by the adjugate formula; when the determinant is
zero this yields the junk value 0 • adjugate, which is never exposed by the
operations below (they raise `KErr.singular` first). -/
def matInv {n : ℕ} (A : Mat n n) : Mat n n := (A.det)⁻¹ • A.adjugate

/-- Model of `scipy.linalg.inv`: errors with a singular-matrix condition
exactly when the determinant vanishes, otherwise returns the inverse. -/
def scipyInv {n : ℕ} (A : Mat n n) : Except KErr (Mat n n) :=
  if A.det = 0 then .error .singular else .ok (matInv A)

/-- The KalmanFilter object: the five model parameters stored by
`__init__` (lines 24-28), plus the two attributes `states` and `obs` that
`evolve` assigns onto `self` (lines 50-51); `none` models the attribute not
being present on the object. -/
structure KalmanFilter (n m : ℕ) where
  F : Mat n n
  Q : Mat n n
  H : Mat m n
  R : Mat m m
  u : Vec n
  states : Option (List (Vec n)) := none
  obs : Option (List (Vec 2)) := none

/-- First two components of a length-4 vector (`x0[:2]` at line 53). -/
def firstTwo (x : Vec 4) : Vec 2 := fun j => x ⟨j.val, by omega⟩

/-- State sequence produced by the `evolve` loop (lines 56-63):
`states[:,i] = F @ states[:,i-1] + u + ε_i`, where ε_i is the draw from
`np.random.multivariate_normal(0, Q)` at iteration i.  The loop variable
`x0` is reassigned to the new column at the end of each iteration. -/
def evolveState (kf : KalmanFilter 4 2) (x0 : Vec 4) (ε : ℕ → Vec 4) : ℕ → Vec 4
  | 0 => x0
  | i + 1 => kf.F.mulVec (evolveState kf x0 ε i) + kf.u + ε (i + 1)

/-- Observation sequence produced by the `evolve` loop: `obs[:,0] = x0[:2]`
(line 53) and `obs[:,i] = H @ x0 + δ_i` (line 60), where at iteration i the
loop variable `x0` still holds `states[:,i-1]` (it is only reassigned at
line 63, after the observation is computed), and δ_i is the draw from
`np.random.multivariate_normal(0, R)`. -/
def evolveObs (kf : KalmanFilter 4 2) (x0 : Vec 4) (ε : ℕ → Vec 4) (δ : ℕ → Vec 2) :
    ℕ → Vec 2
  | 0 => firstTwo x0
  | i + 1 => kf.H.mulVec (evolveState kf x0 ε i) + δ (i + 1)

/-- KalmanFilter.evolve (lines 30-65).  The dimensions 4 and 2 are
hard-coded as in the source (`np.zeros(4)`, `np.empty((2,N))`,
`np.zeros(2)`).  Given the realization ε, δ of the noise draws, returns the
updated object (evolve assigns `self.states` and `self.obs`) together with
the two trajectories; errors when N = 0 (the write `states[:,0] = x0` is
out of bounds on a zero-column array). -/
def evolve (kf : KalmanFilter 4 2) (x0 : Vec 4) (N : ℕ) (ε : ℕ → Vec 4)
    (δ : ℕ → Vec 2) :
    Except KErr (KalmanFilter 4 2 × List (Vec 4) × List (Vec 2)) :=
  if N = 0 then .error .outOfBounds
  else
    let sts := (List.range N).map (evolveState kf x0 ε)
    let os := (List.range N).map (evolveObs kf x0 ε δ)
    .ok ({ kf with states := some sts, obs := some os }, sts, os)

/-- Predicted state `out[:,i] = F @ out[:,i-1] + u` (line 100). -/
def predictX {n m : ℕ} (kf : KalmanFilter n m) (x : Vec n) : Vec n :=
  kf.F.mulVec x + kf.u

/-- Predicted covariance `P1 = F @ P0 @ F.T + Q` (line 101). -/
def predictP {n m : ℕ} (kf : KalmanFilter n m) (P : Mat n n) : Mat n n :=
  kf.F * P * kf.F.transpose + kf.Q

/-- Innovation covariance `S = H @ P1 @ H.T + R` (line 106). -/
def innovCov {n m : ℕ} (kf : KalmanFilter n m) (P1 : Mat n n) : Mat m m :=
  kf.H * P1 * kf.H.transpose + kf.R

/-- Body of the `estimate` loop (lines 98-109), from column index i with
`steps` iterations remaining, carrying the current estimate x and error
covariance P (the code reuses the variable `P0` for the carried
covariance).  Returns the estimate columns and covariance norms produced by
the remaining iterations.  ν models the external `scipy.linalg.norm`
applied to the predicted covariance; an exception raised by `inv(S)`
discards everything (the whole call fails, per line 107). -/
def estLoop {n m : ℕ} (kf : KalmanFilter n m) (ν : Mat n n → ℚ) (z : ℕ → Vec m) :
    ℕ → Vec n → Mat n n → ℕ → Except KErr (List (Vec n) × List ℚ)
  | _, _, _, 0 => .ok ([], [])
  | i, x, P, steps + 1 =>
    let x1 := predictX kf x
    let P1 := predictP kf P
    let y := z i - kf.H.mulVec x1
    match scipyInv (innovCov kf P1) with
    | .error e => .error e
    | .ok Sinv =>
      let K := P1 * kf.H.transpose * Sinv
      let x2 := x1 + K.mulVec y
      let P2 := (1 - K * kf.H) * P1
      match estLoop kf ν z (i + 1) x2 P2 steps with
      | .error e => .error e
      | .ok (xs, ns) => .ok (x2 :: xs, ν P1 :: ns)

/-- KalmanFilter.estimate (lines 69-111): column 0 of the output is x0
(line 93), `norms` starts as `[norm(P0)]` (line 94), and the loop runs for
i = 1..N-1 where N is the number of columns of z.  The `return_norms`
parameter is accepted but never read by the body, which always returns the
pair `(out, norms)`.  Errors when N = 0 (`out[:,0] = x0` is out of bounds)
or when some innovation covariance is singular. -/
def estimate {n m : ℕ} (kf : KalmanFilter n m) (ν : Mat n n → ℚ) (x0 : Vec n)
    (P0 : Mat n n) (z : ℕ → Vec m) (N : ℕ) ( return_norms : Bool) :
    Except KErr (List (Vec n) × List ℚ) :=
  if N = 0 then .error .outOfBounds
  else
    match estLoop kf ν z 1 x0 P0 (N - 1) with
    | .error e => .error e
    | .ok (xs, ns) => .ok (x0 :: xs, ν P0 :: ns)

/-- State sequence of KalmanFilter.predict (line 137):
`out[:,i] = F @ out[:,i-1] + u`. -/
def predictSeq {n m : ℕ} (kf : KalmanFilter n m) (x : Vec n) : ℕ → Vec n
  | 0 => x
  | i + 1 => kf.F.mulVec (predictSeq kf x i) + kf.u

/-- KalmanFilter.predict (lines 114-139): deterministic k-step forward
rollout with column 0 = x; errors when k = 0 (`out[:,0] = x` is out of
bounds). -/
def predict {n m : ℕ} (kf : KalmanFilter n m) (x : Vec n) (k : ℕ) :
    Except KErr (List (Vec n)) :=
  if k = 0 then .error .outOfBounds
  else .ok ((List.range k).map (predictSeq kf x))

/-- State sequence of KalmanFilter.rewind (line 163):
`out[:,i] = inv(F) @ (out[:,i-1] - u)`. -/
def rewindSeq {n m : ℕ} (kf : KalmanFilter n m) (x : Vec n) : ℕ → Vec n
  | 0 => x
  | i + 1 => (matInv kf.F).mulVec (rewindSeq kf x i - kf.u)

/-- KalmanFilter.rewind (lines 141-165): k-step backward rollout with
column 0 = x; errors when k = 0 (`out[:,0] = x` is out of bounds), and
with a singular-matrix error when the loop body runs (k ≥ 2) and F is not
invertible, because `inv(self.F)` is evaluated inside the loop (line 163)
and hence never evaluated when k ≤ 1. -/
def rewind {n m : ℕ} (kf : KalmanFilter n m) (x : Vec n) (k : ℕ) :
    Except KErr (List (Vec n)) :=
  if k = 0 then .error .outOfBounds
  else if 2 ≤ k ∧ kf.F.det = 0 then .error .singular
  else .ok ((List.range k).map (rewindSeq kf x))

/-- Kalman gain `K = P1 @ H.T @ inv(S)` (line 107), written with the total
inverse. -/
def gainK {n m : ℕ} (kf : KalmanFilter n m) (P1 : Mat n n) : Mat n m :=
  P1 * kf.H.transpose * matInv (innovCov kf P1)

/-- One update of the loop-carried covariance:
`P0 = (I - K @ H) @ P1` with `P1 = F @ P0 @ F.T + Q` (lines 101, 109). -/
def stepP {n m : ℕ} (kf : KalmanFilter n m) (P : Mat n n) : Mat n n :=
  (1 - gainK kf (predictP kf P) * kf.H) * predictP kf P

/-- One update of the loop-carried estimate: predict then correct by the
gain times the innovation (lines 100, 105-108). -/
def stepX {n m : ℕ} (kf : KalmanFilter n m) (zi : Vec m) (x : Vec n)
    (P : Mat n n) : Vec n :=
  predictX kf x +
    (gainK kf (predictP kf P)).mulVec (zi - kf.H.mulVec (predictX kf x))

/-- Post-update error covariance carried by the estimate loop after i
iterations, starting from the caller-supplied P0. -/
def covSeq {n m : ℕ} (kf : KalmanFilter n m) (P0 : Mat n n) : ℕ → Mat n n
  | 0 => P0
  | i + 1 => stepP kf (covSeq kf P0 i)

/-- Estimate column produced by the estimate loop after j iterations when
the loop starts at column index i0 with carried state (x, P). -/
def outSeq {n m : ℕ} (kf : KalmanFilter n m) (z : ℕ → Vec m) (i0 : ℕ) (x : Vec n)
    (P : Mat n n) : ℕ → Vec n
  | 0 => x
  | j + 1 => stepX kf (z (i0 + j)) (outSeq kf z i0 x P j) (covSeq kf P j)

/-- Zero-parameter system used to instantiate theorems about evolve. -/
def kfZ : KalmanFilter 4 2 := ⟨0, 0, 0, 0, 0, none, none⟩

/-- Zero process-noise realization. -/
def zv4 : ℕ → Vec 4 := fun _ => 0

/-- Zero observation-noise realization. -/
def zv2 : ℕ → Vec 2 := fun _ => 0

/-- C9: for every state x, rewind(x, 1) returns the single-column
trajectory [x] and succeeds for every system, including those whose
transition matrix F is singular, because the loop body that computes
inv(F) never runs when k = 1. -/
theorem rewind_single_step {n m : ℕ} (kf : KalmanFilter n m) (x : Vec n) :
    rewind kf x 1 = .ok [x] := by
  unfold rewind
  rw [if_neg (by omega), if_neg (by rintro ⟨h, -⟩; omega)]
  rfl

/-- C10: the return_norms parameter of estimate has no effect: the result
is identical whether it is true or false, and the norm sequence is always
computed and returned. -/
theorem estimate_ignores_return_norms {n m : ℕ} (kf : KalmanFilter n m)
    (ν : Mat n n → ℚ) (x0 : Vec n) (P0 : Mat n n) (z : ℕ → Vec m) (N : ℕ) :
    estimate kf ν x0 P0 z N true = estimate kf ν x0 P0 z N false := rfl

/-- Projectile transition matrix of the concrete scenario (time step 0.1). -/
def Fproj : Mat 4 4 := !![1,0,1/10,0; 0,1,0,1/10; 0,0,1,0; 0,0,0,1]

/-- Projectile control vector of the concrete scenario (gravity pull). -/
def uproj : Vec 4 := ![0, 0, 0, -(98/100)]

/-- C7: with the projectile F and u, Q = 0 (so the process-noise draws are
deterministically zero), x0 = [0,0,300,600] and N = 3, the state at column
1 equals F·x0 + u = [30, 60, 300, 599.02] exactly, for every observation
model, observation noise covariance and observation-noise realization. -/
theorem evolve_projectile_second_state (H : Mat 2 4) (R : Mat 2 2)
    (δ : ℕ → Vec 2) :
    (evolve ⟨Fproj, 0, H, R, uproj, none, none⟩ ![0,0,300,600] 3 (fun _ => 0) δ).map
        (fun r => r.2.1[1]?) = .ok (some ![30, 60, 300, 59902/100]) := by
  unfold evolve
  rw [if_neg (by omega)]
  show Except.ok (((List.range 3).map _)[1]?) = _
  rw [show List.range 3 = [0, 1, 2] by rfl]
  show Except.ok (some (evolveState _ _ _ 1)) = _
  have : evolveState ⟨Fproj, 0, H, R, uproj, none, none⟩ ![0,0,300,600] (fun _ => 0) 1
      = ![30, 60, 300, 59902/100] := by
    show Fproj.mulVec ![0,0,300,600] + uproj + 0 = ![30, 60, 300, 59902/100]
    funext i
    fin_cases i <;>
      simp [Fproj, uproj, Matrix.mulVec, Matrix.dotProduct, Fin.sum_univ_succ,
        Matrix.vecHead, Matrix.vecTail, Function.comp] <;>
      norm_num
  rw [this]

/-- Successful unfolding of evolve for a positive number of steps. -/
theorem evolve_eq_ok (kf : KalmanFilter 4 2) (x0 : Vec 4) (N : ℕ)
    (ε : ℕ → Vec 4) (δ : ℕ → Vec 2) (hN : N ≠ 0) :
    evolve kf x0 N ε δ =
      .ok ({ kf with states := some ((List.range N).map (evolveState kf x0 ε)),
                     obs := some ((List.range N).map (evolveObs kf x0 ε δ)) },
           (List.range N).map (evolveState kf x0 ε),
           (List.range N).map (evolveObs kf x0 ε δ)) := by
  unfold evolve
  rw [if_neg hN]

/-- C2: in every trajectory produced by evolve, the observation at column
i (1 ≤ i < N) is H applied to the state at column i-1 plus the
observation-noise draw at step i: the observation uses the previous state,
not the newly computed one. -/
theorem evolve_observation_uses_previous_state (kf : KalmanFilter 4 2)
    (x0 : Vec 4) (N : ℕ) (ε : ℕ → Vec 4) (δ : ℕ → Vec 2)
    (kf2 : KalmanFilter 4 2) (sts : List (Vec 4)) (os : List (Vec 2)) (i : ℕ)
    (hok : evolve kf x0 N ε δ = .ok (kf2, sts, os))
    (h1 : 1 ≤ i) (hN : i < N) (s : Vec 4) (hs : sts[i-1]? = some s) :
    os[i]? = some (kf.H.mulVec s + δ i) := by
  rw [evolve_eq_ok kf x0 N ε δ (by omega), Except.ok.injEq, Prod.mk.injEq,
    Prod.mk.injEq] at hok
  obtain ⟨-, hsts, hos⟩ := hok
  subst hsts hos
  obtain ⟨j, rfl⟩ : ∃ j, i = j + 1 := ⟨i - 1, by omega⟩
  rw [List.getElem?_map, List.getElem?_range (show j + 1 - 1 < N by omega),
    Option.map_some', Option.some.injEq, Nat.add_sub_cancel] at hs
  rw [List.getElem?_map, List.getElem?_range hN, Option.map_some',
    Option.some.injEq, show evolveObs kf x0 ε δ (j + 1) =
      kf.H.mulVec (evolveState kf x0 ε j) + δ (j + 1) from rfl, hs]

/-- Witness for C2: a concrete two-step trajectory of the zero system, at
which the observation at column 1 is H times the state at column 0 plus
the observation-noise draw at step 1. -/
theorem evolve_observation_uses_previous_state_witness :
    ((List.range 2).map (evolveObs kfZ 0 zv4 zv2))[1]? =
      some (kfZ.H.mulVec (evolveState kfZ 0 zv4 0) + zv2 1) :=
  evolve_observation_uses_previous_state kfZ 0 2 zv4 zv2
    { kfZ with states := some ((List.range 2).map (evolveState kfZ 0 zv4)),
               obs := some ((List.range 2).map (evolveObs kfZ 0 zv4 zv2)) }
    ((List.range 2).map (evolveState kfZ 0 zv4))
    ((List.range 2).map (evolveObs kfZ 0 zv4 zv2))
    1 (evolve_eq_ok kfZ 0 2 zv4 zv2 (by omega)) (by omega) (by omega)
    (evolveState kfZ 0 zv4 0) rfl

/-- C6: for every N ≥ 1 evolve succeeds and returns state and observation
trajectories of exactly N columns, with state column 0 equal to x0 and
observation column 0 equal to the first two components of x0. -/
theorem evolve_lengths_and_first_columns (kf : KalmanFilter 4 2) (x0 : Vec 4)
    (N : ℕ) (ε : ℕ → Vec 4) (δ : ℕ → Vec 2) (hN : 1 ≤ N) :
    (evolve kf x0 N ε δ).map
        (fun r => (r.2.1.length, r.2.2.length, r.2.1[0]?, r.2.2[0]?)) =
      .ok (N, N, some x0, some (firstTwo x0)) := by
  rw [evolve_eq_ok kf x0 N ε δ (by omega)]
  simp only [Except.map, List.length_map, List.length_range, List.getElem?_map,
    List.getElem?_range (show 0 < N by omega), Option.map_some']
  rfl

/-- Witness for C6 at a concrete input: a one-step trajectory of the zero
system has the advertised lengths and first columns. -/
theorem evolve_lengths_and_first_columns_witness :
    (evolve kfZ 0 1 zv4 zv2).map
        (fun r => (r.2.1.length, r.2.2.length, r.2.1[0]?, r.2.2[0]?)) =
      .ok (1, 1, some 0, some (firstTwo 0)) :=
  evolve_lengths_and_first_columns kfZ 0 1 zv4 zv2 (by omega)

/-- State trajectory of the zero system after two evolve steps. -/
def stsZ : List (Vec 4) := (List.range 2).map (evolveState kfZ 0 zv4)

/-- Observation trajectory of the zero system after two evolve steps. -/
def osZ : List (Vec 2) := (List.range 2).map (evolveObs kfZ 0 zv4 zv2)

/-- The zero system object after evolve has written its trajectories. -/
def kfZ2 : KalmanFilter 4 2 := { kfZ with states := some stsZ, obs := some osZ }

/-- C8 (amended): evolve preserves the five stored model parameters F, Q,
H, R, u, but does write onto the system object: the returned object is the
input object with its states and obs attributes set to the computed
trajectories.  estimate, predict and rewind neither read nor write any
attribute other than the parameters, so each call's result is a pure
function of its arguments, the parameters, and (for evolve) the noise
draws. -/
theorem evolve_preserves_parameters_but_writes_trajectories
    (kf : KalmanFilter 4 2) (x0 : Vec 4) (N : ℕ) (ε : ℕ → Vec 4)
    (δ : ℕ → Vec 2) (kf2 : KalmanFilter 4 2) (sts : List (Vec 4))
    (os : List (Vec 2)) (hok : evolve kf x0 N ε δ = .ok (kf2, sts, os)) :
    kf2.F = kf.F ∧ kf2.Q = kf.Q ∧ kf2.H = kf.H ∧ kf2.R = kf.R ∧
    kf2.u = kf.u ∧ kf2.states = some sts ∧ kf2.obs = some os := by
  have hN : N ≠ 0 := by
    intro h
    subst h
    rw [show evolve kf x0 0 ε δ = .error .outOfBounds from rfl] at hok
    cases hok
  rw [evolve_eq_ok kf x0 N ε δ hN, Except.ok.injEq, Prod.mk.injEq,
    Prod.mk.injEq] at hok
  obtain ⟨hkf, hsts, hos⟩ := hok
  subst hsts hos
  rw [← hkf]
  exact ⟨rfl, rfl, rfl, rfl, rfl, rfl, rfl⟩

/-- Witness for the amended C8 at a concrete input: a two-step evolve call
on the zero system preserves the parameters and records the trajectories. -/
theorem evolve_preserves_parameters_but_writes_trajectories_witness :
    kfZ2.F = kfZ.F ∧ kfZ2.Q = kfZ.Q ∧ kfZ2.H = kfZ.H ∧ kfZ2.R = kfZ.R ∧
    kfZ2.u = kfZ.u ∧ kfZ2.states = some stsZ ∧ kfZ2.obs = some osZ :=
  evolve_preserves_parameters_but_writes_trajectories kfZ 0 2 zv4 zv2
    kfZ2 stsZ osZ (evolve_eq_ok kfZ 0 2 zv4 zv2 (by omega))

/-- Counterexample to C8 as stated: evolve does write state onto the
system object that persists across calls, so the object returned by a
call differs from the object passed in (its states attribute changes from
absent to the computed trajectory). -/
theorem evolve_mutates_the_object :
    (evolve kfZ 0 1 zv4 zv2).map Prod.fst ≠ .ok kfZ := by
  rw [evolve_eq_ok kfZ 0 1 zv4 zv2 (by omega)]
  intro h
  simp only [Except.map] at h
  have h2 := congrArg KalmanFilter.states (Except.ok.inj h)
  simp [kfZ] at h2

/-- Left-inverse property of the embedded matrix inverse on nonsingular
matrices. -/
theorem matInv_mul_cancel {n : ℕ} (A : Mat n n) (h : A.det ≠ 0) :
    matInv A * A = 1 := by
  unfold matInv
  rw [Matrix.smul_mul, Matrix.adjugate_mul, smul_smul, inv_mul_cancel₀ h,
    one_smul]

/-- Applying matInv A undoes applying A on vectors when A is nonsingular. -/
theorem matInv_mulVec_cancel {n : ℕ} (A : Mat n n) (h : A.det ≠ 0)
    (v : Vec n) : (matInv A).mulVec (A.mulVec v) = v := by
  rw [Matrix.mulVec_mulVec, matInv_mul_cancel A h, Matrix.one_mulVec]

/-- Each rewind step undoes the matching predict step: after j ≤ i rewind
steps from the i-th predicted state one reaches the (i-j)-th predicted
state. -/
theorem rewindSeq_predictSeq {n m : ℕ} (kf : KalmanFilter n m) (x : Vec n)
    (h : kf.F.det ≠ 0) (i : ℕ) :
    ∀ j, j ≤ i → rewindSeq kf (predictSeq kf x i) j = predictSeq kf x (i - j) := by
  intro j
  induction j with
  | zero => intro _; rfl
  | succ j ih =>
    intro hj
    rw [show rewindSeq kf (predictSeq kf x i) (j + 1)
        = (matInv kf.F).mulVec (rewindSeq kf (predictSeq kf x i) j - kf.u) from rfl,
      ih (by omega)]
    obtain ⟨l, hl⟩ : ∃ l, i - j = l + 1 := ⟨i - j - 1, by omega⟩
    rw [hl, show predictSeq kf x (l + 1)
        = kf.F.mulVec (predictSeq kf x l) + kf.u from rfl,
      add_sub_cancel_right, matInv_mulVec_cancel kf.F h,
      show i - (j + 1) = l by omega]

/-- C5: for a system with invertible F and any horizon k ≥ 1, predicting k
steps from x and then rewinding k steps from the last predicted column
recovers x at the last rewound column, because the rewind step map
v ↦ F⁻¹(v − u) inverts the predict step map v ↦ Fv + u. -/
theorem predict_rewind_roundtrip {n m : ℕ} (kf : KalmanFilter n m)
    (x : Vec n) (k : ℕ) (hdet : kf.F.det ≠ 0) (hk : 1 ≤ k) :
    (predict kf x k).map (fun p => p[k-1]?) = .ok (some (predictSeq kf x (k-1))) ∧
    (rewind kf (predictSeq kf x (k-1)) k).map (fun r => r[k-1]?) = .ok (some x) := by
  constructor
  · unfold predict
    rw [if_neg (by omega)]
    simp only [Except.map, List.getElem?_map,
      List.getElem?_range (show k - 1 < k by omega), Option.map_some']
  · unfold rewind
    rw [if_neg (by omega), if_neg (by rintro ⟨-, h0⟩; exact hdet h0)]
    simp only [Except.map, List.getElem?_map,
      List.getElem?_range (show k - 1 < k by omega), Option.map_some',
      Except.ok.injEq, Option.some.injEq]
    rw [rewindSeq_predictSeq kf x hdet (k-1) (k-1) (le_refl _), Nat.sub_self]
    rfl

/-- Invertible one-dimensional system used as a witness input. -/
def kfW : KalmanFilter 1 1 := ⟨!![2], 0, !![1], !![1], ![3], none, none⟩

/-- Witness for C5 at a concrete input: the two-step roundtrip on the
one-dimensional system with F = [[2]] returns to the seed state. -/
theorem predict_rewind_roundtrip_witness :
    (predict kfW ![5] 2).map (fun p => p[1]?) = .ok (some (predictSeq kfW ![5] 1)) ∧
    (rewind kfW (predictSeq kfW ![5] 1) 2).map (fun r => r[1]?) = .ok (some ![5]) :=
  predict_rewind_roundtrip kfW ![5] 2
    (by rw [show kfW.F = !![2] from rfl, Matrix.det_fin_one_of]; norm_num)
    (by omega)

/-- Shifting the covariance recursion by one step. -/
theorem covSeq_succ_shift {n m : ℕ} (kf : KalmanFilter n m) (P : Mat n n) :
    ∀ j, covSeq kf P (j + 1) = covSeq kf (stepP kf P) j
  | 0 => rfl
  | j + 1 => by
    rw [show covSeq kf P (j + 1 + 1) = stepP kf (covSeq kf P (j + 1)) from rfl,
      covSeq_succ_shift kf P j]
    rfl

/-- Shifting the estimate-column recursion by one step. -/
theorem outSeq_succ_shift {n m : ℕ} (kf : KalmanFilter n m) (z : ℕ → Vec m)
    (i : ℕ) (x : Vec n) (P : Mat n n) :
    ∀ j, outSeq kf z i x P (j + 1) =
      outSeq kf z (i + 1) (stepX kf (z i) x P) (stepP kf P) j
  | 0 => by
    rw [show outSeq kf z i x P 1 = stepX kf (z (i + 0)) x P from rfl, Nat.add_zero]
    rfl
  | j + 1 => by
    rw [show outSeq kf z i x P (j + 1 + 1) = stepX kf (z (i + (j + 1)))
        (outSeq kf z i x P (j + 1)) (covSeq kf P (j + 1)) from rfl,
      outSeq_succ_shift kf z i x P j, covSeq_succ_shift kf P j,
      show i + (j + 1) = i + 1 + j by omega]
    rfl

/-- One unfolding of the estimate loop, with the carried state and
covariance expressed through the step maps. -/
theorem estLoop_succ {n m : ℕ} (kf : KalmanFilter n m) (ν : Mat n n → ℚ)
    (z : ℕ → Vec m) (i : ℕ) (x : Vec n) (P : Mat n n) (steps : ℕ) :
    estLoop kf ν z i x P (steps + 1) =
      if (innovCov kf (predictP kf P)).det = 0 then .error .singular
      else
        match estLoop kf ν z (i + 1) (stepX kf (z i) x P) (stepP kf P) steps with
        | .error e => .error e
        | .ok (xs, ns) => .ok (stepX kf (z i) x P :: xs, ν (predictP kf P) :: ns) := by
  show (match scipyInv (innovCov kf (predictP kf P)) with
    | Except.error e => Except.error e
    | Except.ok Sinv =>
      match estLoop kf ν z (i + 1)
          (predictX kf x + (predictP kf P * kf.H.transpose * Sinv).mulVec
            (z i - kf.H.mulVec (predictX kf x)))
          ((1 - predictP kf P * kf.H.transpose * Sinv * kf.H) * predictP kf P) steps with
      | Except.error e => Except.error e
      | Except.ok (xs, ns) =>
        Except.ok ((predictX kf x + (predictP kf P * kf.H.transpose * Sinv).mulVec
              (z i - kf.H.mulVec (predictX kf x))) :: xs, ν (predictP kf P) :: ns)) = _
  unfold scipyInv
  by_cases h0 : (innovCov kf (predictP kf P)).det = 0
  · rw [if_pos h0, if_pos h0]
  · rw [if_neg h0, if_neg h0]
    rfl

/-- Head-tail decomposition of the canonical estimate-column list. -/
theorem canonOut_cons {n m : ℕ} (kf : KalmanFilter n m) (z : ℕ → Vec m)
    (steps i : ℕ) (x : Vec n) (P : Mat n n) :
    (List.range (steps + 1)).map (fun j => outSeq kf z i x P (j + 1)) =
      stepX kf (z i) x P ::
        (List.range steps).map
          (fun j => outSeq kf z (i + 1) (stepX kf (z i) x P) (stepP kf P) (j + 1)) := by
  rw [List.range_succ_eq_map, List.map_cons, List.map_map]
  congr 1
  congr 1
  funext j
  show outSeq kf z i x P (j + 1 + 1) = _
  rw [outSeq_succ_shift]

/-- Head-tail decomposition of the canonical covariance-norm list. -/
theorem canonNorm_cons {n m : ℕ} (kf : KalmanFilter n m) (ν : Mat n n → ℚ)
    (steps : ℕ) (P : Mat n n) :
    (List.range (steps + 1)).map (fun j => ν (predictP kf (covSeq kf P j))) =
      ν (predictP kf P) ::
        (List.range steps).map
          (fun j => ν (predictP kf (covSeq kf (stepP kf P) j))) := by
  rw [List.range_succ_eq_map, List.map_cons, List.map_map]
  congr 1
  congr 1
  funext j
  show ν (predictP kf (covSeq kf P (j + 1))) = _
  rw [covSeq_succ_shift]

/-- Characterization of a successful run of the estimate loop: it returns
normally exactly when every innovation covariance along the way is
nonsingular, and then the returned columns and norms are the ones given by
the step recursions. -/
theorem estLoop_ok_iff {n m : ℕ} (kf : KalmanFilter n m) (ν : Mat n n → ℚ)
    (z : ℕ → Vec m) :
    ∀ (steps i : ℕ) (x : Vec n) (P : Mat n n) (r : List (Vec n) × List ℚ),
      estLoop kf ν z i x P steps = .ok r ↔
        ((∀ j < steps, (innovCov kf (predictP kf (covSeq kf P j))).det ≠ 0) ∧
         r = ((List.range steps).map (fun j => outSeq kf z i x P (j + 1)),
              (List.range steps).map (fun j => ν (predictP kf (covSeq kf P j)))))
  | 0, i, x, P, r => by
    constructor
    · intro h
      obtain rfl : (([], []) : List (Vec n) × List ℚ) = r := Except.ok.inj h
      exact ⟨fun j hj => absurd hj (by omega), rfl⟩
    · rintro ⟨-, rfl⟩
      rfl
  | steps + 1, i, x, P, r => by
    rw [estLoop_succ]
    by_cases h0 : (innovCov kf (predictP kf P)).det = 0
    · rw [if_pos h0]
      constructor
      · intro h; cases h
      · rintro ⟨hdet, -⟩
        exact absurd h0 (hdet 0 (by omega))
    · rw [if_neg h0]
      cases hrec : estLoop kf ν z (i + 1) (stepX kf (z i) x P) (stepP kf P) steps with
      | error e2 =>
        show Except.error e2 = Except.ok r ↔ _
        constructor
        · intro h; cases h
        · rintro ⟨hdet, -⟩
          have hok2 := (estLoop_ok_iff kf ν z steps (i + 1) (stepX kf (z i) x P) (stepP kf P)
            ((List.range steps).map
               (fun j => outSeq kf z (i + 1) (stepX kf (z i) x P) (stepP kf P) (j + 1)),
             (List.range steps).map
               (fun j => ν (predictP kf (covSeq kf (stepP kf P) j))))).mpr
            ⟨fun j hj => by
                rw [← covSeq_succ_shift kf P j]
                exact hdet (j + 1) (by omega),
              rfl⟩
          rw [hrec] at hok2
          cases hok2
      | ok r2 =>
        obtain ⟨xs2, ns2⟩ := r2
        show Except.ok (stepX kf (z i) x P :: xs2, ν (predictP kf P) :: ns2) = Except.ok r ↔ _
        obtain ⟨hdets2, hr2⟩ := (estLoop_ok_iff kf ν z steps (i + 1)
          (stepX kf (z i) x P) (stepP kf P) (xs2, ns2)).mp hrec
        rw [Prod.mk.injEq] at hr2
        obtain ⟨hxs2, hns2⟩ := hr2
        subst hxs2 hns2
        constructor
        · intro h
          obtain rfl := Except.ok.inj h
          refine ⟨?_, ?_⟩
          · intro j hj
            cases j with
            | zero => exact h0
            | succ j =>
              rw [covSeq_succ_shift kf P j]
              exact hdets2 j (by omega)
          · rw [canonOut_cons kf z steps i x P, canonNorm_cons kf ν steps P]
        · rintro ⟨-, rfl⟩
          rw [canonOut_cons kf z steps i x P, canonNorm_cons kf ν steps P]

/-- Characterization of a failed run of the estimate loop: it raises
exactly the singular-matrix error, exactly when some innovation covariance
along the covariance recursion is singular. -/
theorem estLoop_error_iff {n m : ℕ} (kf : KalmanFilter n m) (ν : Mat n n → ℚ)
    (z : ℕ → Vec m) :
    ∀ (steps i : ℕ) (x : Vec n) (P : Mat n n) (e : KErr),
      estLoop kf ν z i x P steps = .error e ↔
        (e = .singular ∧
         ∃ j < steps, (innovCov kf (predictP kf (covSeq kf P j))).det = 0)
  | 0, i, x, P, e => by
    constructor
    · intro h; cases h
    · rintro ⟨-, j, hj, -⟩; omega
  | steps + 1, i, x, P, e => by
    rw [estLoop_succ]
    by_cases h0 : (innovCov kf (predictP kf P)).det = 0
    · rw [if_pos h0]
      constructor
      · intro h
        obtain rfl : KErr.singular = e := Except.error.inj h
        exact ⟨rfl, 0, by omega, h0⟩
      · rintro ⟨rfl, -⟩; rfl
    · rw [if_neg h0]
      cases hrec : estLoop kf ν z (i + 1) (stepX kf (z i) x P) (stepP kf P) steps with
      | error e2 =>
        show Except.error e2 = Except.error e ↔ _
        obtain ⟨he2, j, hj, hd⟩ := (estLoop_error_iff kf ν z steps (i + 1)
          (stepX kf (z i) x P) (stepP kf P) e2).mp hrec
        constructor
        · intro h
          obtain rfl : e2 = e := Except.error.inj h
          exact ⟨he2, j + 1, by omega, by rw [covSeq_succ_shift]; exact hd⟩
        · rintro ⟨rfl, -⟩
          rw [he2]
      | ok r2 =>
        obtain ⟨xs2, ns2⟩ := r2
        show Except.ok (stepX kf (z i) x P :: xs2, ν (predictP kf P) :: ns2)
            = Except.error e ↔ _
        constructor
        · intro h; cases h
        · rintro ⟨rfl, j, hj, hd⟩
          obtain ⟨hdets2, -⟩ := (estLoop_ok_iff kf ν z steps (i + 1)
            (stepX kf (z i) x P) (stepP kf P) (xs2, ns2)).mp hrec
          cases j with
          | zero => exact absurd hd h0
          | succ j =>
            rw [covSeq_succ_shift] at hd
            exact absurd hd (hdets2 j (by omega))

/-- Characterization of a successful estimate call: N must be positive,
every innovation covariance along the run must be nonsingular, and the
returned columns and norms are then the canonical sequences, headed by the
caller-supplied x0 and norm of P0. -/
theorem estimate_ok_iff {n m : ℕ} (kf : KalmanFilter n m) (ν : Mat n n → ℚ)
    (x0 : Vec n) (P0 : Mat n n) (z : ℕ → Vec m) (N : ℕ) (rn : Bool)
    (r : List (Vec n) × List ℚ) :
    estimate kf ν x0 P0 z N rn = .ok r ↔
      (N ≠ 0 ∧
       (∀ j < N - 1, (innovCov kf (predictP kf (covSeq kf P0 j))).det ≠ 0) ∧
       r = (x0 :: (List.range (N - 1)).map (fun j => outSeq kf z 1 x0 P0 (j + 1)),
            ν P0 :: (List.range (N - 1)).map
              (fun j => ν (predictP kf (covSeq kf P0 j))))) := by
  unfold estimate
  by_cases hN : N = 0
  · rw [if_pos hN]
    constructor
    · intro h; cases h
    · rintro ⟨h, -⟩; exact absurd hN h
  · rw [if_neg hN]
    cases hrec : estLoop kf ν z 1 x0 P0 (N - 1) with
    | error e =>
      show Except.error e = Except.ok r ↔ _
      constructor
      · intro h; cases h
      · rintro ⟨-, hdet, -⟩
        have hok2 := (estLoop_ok_iff kf ν z (N - 1) 1 x0 P0
          ((List.range (N - 1)).map (fun j => outSeq kf z 1 x0 P0 (j + 1)),
           (List.range (N - 1)).map
             (fun j => ν (predictP kf (covSeq kf P0 j))))).mpr ⟨hdet, rfl⟩
        rw [hrec] at hok2
        cases hok2
    | ok r2 =>
      obtain ⟨xs2, ns2⟩ := r2
      show Except.ok (x0 :: xs2, ν P0 :: ns2) = Except.ok r ↔ _
      obtain ⟨hdets2, hr2⟩ := (estLoop_ok_iff kf ν z (N - 1) 1 x0 P0
        (xs2, ns2)).mp hrec
      rw [Prod.mk.injEq] at hr2
      obtain ⟨hxs2, hns2⟩ := hr2
      subst hxs2 hns2
      constructor
      · intro h
        obtain rfl := Except.ok.inj h
        exact ⟨hN, hdets2, rfl⟩
      · rintro ⟨-, -, rfl⟩
        rfl

/-- Estimate raises the singular-matrix error exactly when some innovation
covariance along the covariance recursion (at a loop index 1 ≤ j < N) is
singular. -/
theorem estimate_singular_iff {n m : ℕ} (kf : KalmanFilter n m)
    (ν : Mat n n → ℚ) (x0 : Vec n) (P0 : Mat n n) (z : ℕ → Vec m) (N : ℕ)
    (rn : Bool) :
    estimate kf ν x0 P0 z N rn = .error .singular ↔
      ∃ j, 1 ≤ j ∧ j < N ∧
        (innovCov kf (predictP kf (covSeq kf P0 (j - 1)))).det = 0 := by
  unfold estimate
  by_cases hN : N = 0
  · rw [if_pos hN]
    subst hN
    constructor
    · intro h
      exact absurd (Except.error.inj h) (by intro hh; cases hh)
    · rintro ⟨j, hj1, hj2, -⟩; omega
  · rw [if_neg hN]
    cases hrec : estLoop kf ν z 1 x0 P0 (N - 1) with
    | error e =>
      show Except.error e = Except.error KErr.singular ↔ _
      obtain ⟨he, j, hj, hd⟩ := (estLoop_error_iff kf ν z (N - 1) 1 x0 P0 e).mp hrec
      subst he
      constructor
      · intro _
        exact ⟨j + 1, by omega, by omega, hd⟩
      · intro _; rfl
    | ok r2 =>
      obtain ⟨xs2, ns2⟩ := r2
      show Except.ok (x0 :: xs2, ν P0 :: ns2) = Except.error KErr.singular ↔ _
      obtain ⟨hdets2, -⟩ := (estLoop_ok_iff kf ν z (N - 1) 1 x0 P0 (xs2, ns2)).mp hrec
      constructor
      · intro h; cases h
      · rintro ⟨j, hj1, hjN, hd⟩
        obtain ⟨l, rfl⟩ : ∃ l, j = l + 1 := ⟨j - 1, by omega⟩
        exact absurd hd (hdets2 l (by omega))

/-- Entry a of a successful estimate output is the canonical column a. -/
theorem estimate_out_entry {n m : ℕ} (kf : KalmanFilter n m)
    (ν : Mat n n → ℚ) (x0 : Vec n) (P0 : Mat n n) (z : ℕ → Vec m) (N : ℕ)
    (rn : Bool) (out : List (Vec n)) (ns : List ℚ)
    (hok : estimate kf ν x0 P0 z N rn = .ok (out, ns)) :
    ∀ a, a < N → out[a]? = some (outSeq kf z 1 x0 P0 a) := by
  obtain ⟨-, -, hr⟩ := (estimate_ok_iff kf ν x0 P0 z N rn (out, ns)).mp hok
  rw [Prod.mk.injEq] at hr
  obtain ⟨hout, -⟩ := hr
  subst hout
  intro a ha
  cases a with
  | zero =>
    rw [List.getElem?_cons_zero]
    rfl
  | succ b =>
    rw [List.getElem?_cons_succ, List.getElem?_map,
      List.getElem?_range (show b < N - 1 by omega), Option.map_some']

/-- C1: every successful estimate call satisfies the standard Kalman
recursion at every step i = 1..N-1: with P_prev the covariance carried from
step i-1 and P_pred = F·P_prev·Fᵀ + Q, the innovation covariance
S = H·P_pred·Hᵀ + R is nonsingular, the output column i equals
x_pred + K·y for x_pred = F·x_{i-1} + u, y = z_i − H·x_pred and
K = P_pred·Hᵀ·S⁻¹, and the carried covariance becomes (I − K·H)·P_pred;
the control vector u enters only through x_pred in the predict substep,
never in the update substep. -/
theorem estimate_kalman_recursion {n m : ℕ} (kf : KalmanFilter n m)
    (ν : Mat n n → ℚ) (x0 : Vec n) (P0 : Mat n n) (z : ℕ → Vec m) (N : ℕ)
    (rn : Bool) (out : List (Vec n)) (ns : List ℚ) (i : ℕ)
    (hok : estimate kf ν x0 P0 z N rn = .ok (out, ns))
    (h1 : 1 ≤ i) (hiN : i < N) (xprev : Vec n)
    (hprev : out[i-1]? = some xprev) :
    let Ppred := kf.F * covSeq kf P0 (i - 1) * kf.F.transpose + kf.Q
    let S := kf.H * Ppred * kf.H.transpose + kf.R
    let xpred := kf.F.mulVec xprev + kf.u
    let y := z i - kf.H.mulVec xpred
    let K := Ppred * kf.H.transpose * matInv S
    S.det ≠ 0 ∧ out[i]? = some (xpred + K.mulVec y) ∧
      covSeq kf P0 i = (1 - K * kf.H) * Ppred := by
  intro Ppred S xpred y K
  obtain ⟨j0, rfl⟩ : ∃ j0, i = j0 + 1 := ⟨i - 1, by omega⟩
  obtain ⟨-, hdets, -⟩ := (estimate_ok_iff kf ν x0 P0 z N rn (out, ns)).mp hok
  have hout := estimate_out_entry kf ν x0 P0 z N rn out ns hok
  have hxprev : xprev = outSeq kf z 1 x0 P0 j0 := by
    have h2 := hout j0 (by omega)
    simp only [Nat.add_sub_cancel] at hprev
    rw [h2] at hprev
    exact (Option.some.inj hprev).symm
  subst hxprev
  refine ⟨hdets j0 (by omega), ?_, ?_⟩
  · have houti := hout (j0 + 1) hiN
    rw [houti, show outSeq kf z 1 x0 P0 (j0 + 1) = stepX kf (z (1 + j0))
        (outSeq kf z 1 x0 P0 j0) (covSeq kf P0 j0) from rfl,
      Nat.add_comm 1 j0]
    rfl
  · rfl

/-- C3: for every successful estimate call over N observation columns, the
returned norm sequence has length N, its entry 0 is the norm of the
caller-supplied P0, and for each 1 ≤ i < N its entry i is the norm of the
predicted, pre-update covariance F·P_{i-1}·Fᵀ + Q, not of the post-update
covariance. -/
theorem estimate_norm_sequence {n m : ℕ} (kf : KalmanFilter n m)
    (ν : Mat n n → ℚ) (x0 : Vec n) (P0 : Mat n n) (z : ℕ → Vec m) (N : ℕ)
    (rn : Bool) (out : List (Vec n)) (ns : List ℚ)
    (hok : estimate kf ν x0 P0 z N rn = .ok (out, ns)) :
    ns.length = N ∧ ns[0]? = some (ν P0) ∧
      ∀ i, 1 ≤ i → i < N →
        ns[i]? = some (ν (kf.F * covSeq kf P0 (i - 1) * kf.F.transpose + kf.Q)) := by
  obtain ⟨hN0, -, hr⟩ := (estimate_ok_iff kf ν x0 P0 z N rn (out, ns)).mp hok
  rw [Prod.mk.injEq] at hr
  obtain ⟨-, hns⟩ := hr
  subst hns
  refine ⟨?_, ?_, ?_⟩
  · rw [List.length_cons, List.length_map, List.length_range]
    omega
  · rw [List.getElem?_cons_zero]
  · intro i h1 hiN
    obtain ⟨j0, rfl⟩ : ∃ j0, i = j0 + 1 := ⟨i - 1, by omega⟩
    rw [List.getElem?_cons_succ, List.getElem?_map,
      List.getElem?_range (show j0 < N - 1 by omega), Option.map_some']
    rfl

/-- Norm function used in witness instantiations; its value never
matters. -/
def nuW : Mat 1 1 → ℚ := fun _ => 0

/-- Observation sequence used in witness instantiations. -/
def zW : ℕ → Vec 1 := fun _ => 0

/-- Innovation covariance of the witness system after one predict from the
zero covariance. -/
theorem innovCovW_eval : innovCov kfW (predictP kfW 0) = !![1] := by
  simp [kfW, innovCov, predictP]

/-- Evaluation of a concrete two-column estimate call on the witness
system: the run succeeds and returns the canonical columns and norms. -/
theorem estimateW_eval :
    estimate kfW nuW ![0] 0 zW 2 false =
      .ok (![0] :: (List.range (2 - 1)).map (fun j => outSeq kfW zW 1 ![0] 0 (j + 1)),
           nuW 0 :: (List.range (2 - 1)).map
             (fun j => nuW (predictP kfW (covSeq kfW 0 j)))) :=
  (estimate_ok_iff kfW nuW ![0] 0 zW 2 false _).mpr
    ⟨by omega,
     fun j hj => by
       obtain rfl : j = 0 := by omega
       rw [show covSeq kfW 0 0 = (0 : Mat 1 1) from rfl, innovCovW_eval,
         Matrix.det_fin_one_of]
       norm_num,
     rfl⟩

/-- Witness for C1 at a concrete input: step 1 of the two-column estimate
run on the witness system satisfies the recursion equations. -/
theorem estimate_kalman_recursion_witness :
    let Ppred := kfW.F * covSeq kfW 0 (1 - 1) * kfW.F.transpose + kfW.Q
    let S := kfW.H * Ppred * kfW.H.transpose + kfW.R
    let xpred := kfW.F.mulVec ![0] + kfW.u
    let y := zW 1 - kfW.H.mulVec xpred
    let K := Ppred * kfW.H.transpose * matInv S
    S.det ≠ 0 ∧
      (![0] :: (List.range (2 - 1)).map
        (fun j => outSeq kfW zW 1 ![0] 0 (j + 1)))[1]? = some (xpred + K.mulVec y) ∧
      covSeq kfW 0 1 = (1 - K * kfW.H) * Ppred :=
  estimate_kalman_recursion kfW nuW ![0] 0 zW 2 false
    (![0] :: (List.range (2 - 1)).map (fun j => outSeq kfW zW 1 ![0] 0 (j + 1)))
    (nuW 0 :: (List.range (2 - 1)).map (fun j => nuW (predictP kfW (covSeq kfW 0 j))))
    1 estimateW_eval (by omega) (by omega) ![0] rfl

/-- Witness for C3 at a concrete input: the norm sequence of the
two-column estimate run on the witness system has length 2, starts with
the norm of P0, and continues with the norm of the predicted covariance. -/
theorem estimate_norm_sequence_witness :
    (nuW 0 :: (List.range (2 - 1)).map
        (fun j => nuW (predictP kfW (covSeq kfW 0 j)))).length = 2 ∧
      (nuW 0 :: (List.range (2 - 1)).map
        (fun j => nuW (predictP kfW (covSeq kfW 0 j))))[0]? = some (nuW 0) ∧
      ∀ i, 1 ≤ i → i < 2 →
        (nuW 0 :: (List.range (2 - 1)).map
          (fun j => nuW (predictP kfW (covSeq kfW 0 j))))[i]?
          = some (nuW (kfW.F * covSeq kfW 0 (i - 1) * kfW.F.transpose + kfW.Q)) :=
  estimate_norm_sequence kfW nuW ![0] 0 zW 2 false
    (![0] :: (List.range (2 - 1)).map (fun j => outSeq kfW zW 1 ![0] 0 (j + 1)))
    (nuW 0 :: (List.range (2 - 1)).map (fun j => nuW (predictP kfW (covSeq kfW 0 j))))
    estimateW_eval

/-- C4 (amended): estimate fails with the singular-matrix error exactly
when the innovation covariance S = H·P_pred·Hᵗ + R at some step 1 ≤ j < N
is not invertible, and rewind fails with the singular-matrix error exactly
when the transition matrix F is not invertible AND the loop actually runs
(k ≥ 2; for k ≤ 1 no inverse is computed, so a singular F passes).  In
both cases the error propagates to the caller as the whole result: no
pseudo-inverse or default value is substituted and no partial trajectory
is returned. -/
theorem singular_error_conditions {n m : ℕ} (kf : KalmanFilter n m)
    (ν : Mat n n → ℚ) (x0 : Vec n) (P0 : Mat n n) (z : ℕ → Vec m) (N : ℕ)
    (rn : Bool) (x : Vec n) (k : ℕ) :
    (estimate kf ν x0 P0 z N rn = .error .singular ↔
      ∃ j, 1 ≤ j ∧ j < N ∧
        (kf.H * (kf.F * covSeq kf P0 (j - 1) * kf.F.transpose + kf.Q) *
          kf.H.transpose + kf.R).det = 0) ∧
    (rewind kf x k = .error .singular ↔ (kf.F.det = 0 ∧ 2 ≤ k)) := by
  constructor
  · exact estimate_singular_iff kf ν x0 P0 z N rn
  · unfold rewind
    by_cases hk : k = 0
    · rw [if_pos hk]
      subst hk
      constructor
      · intro h
        exact absurd (Except.error.inj h) (by intro hh; cases hh)
      · rintro ⟨-, h2⟩; omega
    · rw [if_neg hk]
      by_cases hc : 2 ≤ k ∧ kf.F.det = 0
      · rw [if_pos hc]
        exact iff_of_true rfl ⟨hc.2, hc.1⟩
      · rw [if_neg hc]
        constructor
        · intro h; cases h
        · rintro ⟨hd, h2⟩; exact absurd ⟨h2, hd⟩ hc

/-- One-dimensional system with a singular transition matrix. -/
def kfS : KalmanFilter 1 1 := ⟨!![0], 0, !![1], !![1], ![0], none, none⟩

/-- Counterexample to C4 as stated: kfS has singular F, yet rewind with
k = 1 returns normally instead of raising the singular-matrix error,
because inv(F) is only computed inside the loop and the loop does not run
for k = 1; so it is not the case that rewind raises exactly when F is not
invertible. -/
theorem rewind_singular_one_step_succeeds :
    kfS.F.det = 0 ∧ rewind kfS ![0] 1 = .ok [![0]] := by
  constructor
  · rw [show kfS.F = !![0] from rfl, Matrix.det_fin_one_of]
  · unfold rewind
    rw [if_neg (by omega), if_neg (by rintro ⟨h, -⟩; omega)]
    rfl
